import Mathlib

/-!
Verification development for the `i2c_eeprom_util` repository
(`src/i2c_eeprom_util/i2c_eeprom_util.py`).

The Python source is shallowly embedded as executable Lean definitions:

* bytes are `List Nat` (each element intended `< 256`; arithmetic on the
  integer value of a byte string is explicit via `from_bytes` / `natToBe`);
* fallible code returns `Except`;
* the I2C port is a parameter (`Port`) mapping each requested transaction to
  its outcome, and every transactor function additionally returns the list of
  port operations it attempted, in order, so that transaction traces can be
  reasoned about;
* interactive prompts are irrelevant to the properties here and are replaced
  by explicit function arguments (the image, the lines of the image file).

Definitions keep the names of the Python functions they embed.
-/

/-! ### Python string helpers

`wsChar` models the whitespace characters stripped by Python `str.strip`
(restricted to the ASCII whitespace actually relevant here).  `pyStrip`
models `str.strip()`, `isHexDigitC`/`hexVal` classify hexadecimal digit
characters as `bytes.fromhex` and `int(_, 16)` do. -/

def wsChar (c : Char) : Bool :=
  c = ' ' || c = '\t' || c = '\n' || c = '\r' || c = '\x0b' || c = '\x0c'

def pyStrip (l : List Char) : List Char :=
  ((l.dropWhile wsChar).reverse.dropWhile wsChar).reverse

def isHexDigitC (c : Char) : Bool :=
  (('0' ≤ c && c ≤ '9') || ('a' ≤ c && c ≤ 'f') || ('A' ≤ c && c ≤ 'F'))

def hexVal (c : Char) : Nat :=
  if '0' ≤ c && c ≤ '9' then c.toNat - '0'.toNat
  else if 'a' ≤ c && c ≤ 'f' then c.toNat - 'a'.toNat + 10
  else c.toNat - 'A'.toNat + 10

/-- Error message produced by the model of `bytes.fromhex` on bad input. -/
def hexErrMsg : String := "non-hexadecimal number found in fromhex() arg"

/-- Model of Python `bytes.fromhex`: ASCII whitespace is skipped between
byte pairs; every byte is given by two consecutive hexadecimal digits; any
other character, or a lone trailing digit, is an error. -/
def fromhexCore : List Char → Except String (List Nat)
  | [] => Except.ok []
  | c :: cs =>
    if wsChar c then fromhexCore cs
    else if isHexDigitC c then
      match cs with
      | [] => Except.error hexErrMsg
      | d :: rest =>
        if isHexDigitC d then
          (fromhexCore rest).map (fun bs => (16 * hexVal c + hexVal d) :: bs)
        else Except.error hexErrMsg
    else Except.error hexErrMsg

/-- Big-endian integer value of a byte string: Python
`int.from_bytes(b, "big")`. -/
def from_bytes (l : List Nat) : Nat :=
  l.foldl (fun a b => 256 * a + b) 0

/-- Big-endian encoding of `v` in exactly `w` bytes (truncating; the checked
version is `to_bytes`). -/
def natToBe : Nat → Nat → List Nat
  | _, 0 => []
  | v, w + 1 => natToBe (v / 256) w ++ [v % 256]

/-- Model of Python `int.to_bytes(v, w, "big")` for nonnegative `v`:
fails with `OverflowError` when `v` does not fit in `w` bytes. -/
def to_bytes (v w : Nat) : Except String (List Nat) :=
  if v < 256 ^ w then Except.ok (natToBe v w) else Except.error "int too big to convert"

/-! ### `byte_address_parse` (source lines 192-200) -/

inductive AddrErr : Type
  | parse (msg : String)
  | range (msg : String)
deriving DecidableEq

/-- The text-cleaning pipeline of `byte_address_parse`:
`byte_str.strip().lower()`, then removal of a leading `"0x"`. -/
def addrClean (s : String) : List Char :=
  let t := (pyStrip s.data).map Char.toLower
  match t with
  | '0' :: 'x' :: r => r
  | _ => t

/-- Embedding of `byte_address_parse(byte_str, max_size)`: clean the text,
decode it with `bytes.fromhex`, then compare the integer value against
`max_size` (`ValueError("byte_str larger than max_size")` when too large). -/
def byte_address_parse (s : String) (max_size : Option Nat) : Except AddrErr (List Nat) :=
  match fromhexCore (addrClean s) with
  | Except.error e => Except.error (AddrErr.parse e)
  | Except.ok bs =>
    match max_size with
    | none => Except.ok bs
    | some m =>
      if m ≤ from_bytes bs then Except.error (AddrErr.range "byte_str larger than max_size")
      else Except.ok bs

/-- Decoded value of hex text, written from the specification: the usual
base-16 value of the digit characters (whitespace ignored). -/
def hexStrVal (l : List Char) : Nat :=
  (l.filter (fun c => !wsChar c)).foldl (fun a c => 16 * a + hexVal c) 0

/-! ### Basic lemmas for the byte codecs -/

lemma natToBe_length (w : Nat) : ∀ v, (natToBe v w).length = w := by
  induction w with
  | zero => intro v; rfl
  | succ w ih => intro v; simp [natToBe, ih]

lemma from_bytes_append1 (l : List Nat) (b : Nat) :
    from_bytes (l ++ [b]) = 256 * from_bytes l + b := by
  simp [from_bytes, List.foldl_append]

lemma from_bytes_natToBe (w : Nat) : ∀ v, v < 256 ^ w → from_bytes (natToBe v w) = v := by
  induction w with
  | zero =>
    intro v hv
    interval_cases v
    rfl
  | succ w ih =>
    intro v hv
    have hdiv : v / 256 < 256 ^ w := by
      rw [Nat.div_lt_iff_lt_mul (by norm_num)]
      calc v < 256 ^ (w + 1) := hv
        _ = 256 ^ w * 256 := by ring
    calc from_bytes (natToBe v (w + 1))
        = from_bytes (natToBe (v / 256) w ++ [v % 256]) := by rfl
      _ = 256 * from_bytes (natToBe (v / 256) w) + v % 256 := from_bytes_append1 _ _
      _ = 256 * (v / 256) + v % 256 := by rw [ih _ hdiv]
      _ = v := by omega

lemma to_bytes_ok {v w : Nat} (h : v < 256 ^ w) : to_bytes v w = Except.ok (natToBe v w) := by
  simp [to_bytes, h]

lemma to_bytes_err {v w : Nat} (h : 256 ^ w ≤ v) :
    to_bytes v w = Except.error "int too big to convert" := by
  simp [to_bytes]
  omega

lemma hex_not_ws {c : Char} (h : isHexDigitC c = true) : wsChar c = false := by
  by_contra hw
  have hw2 : wsChar c = true := by
    cases h2 : wsChar c
    · exact absurd h2 hw
    · rfl
  simp only [wsChar, Bool.or_eq_true, decide_eq_true_eq] at hw2
  rcases hw2 with ((((h1 | h1) | h1) | h1) | h1) | h1 <;>
    (subst h1; simp [isHexDigitC] at h)

/-! ### `bytes.fromhex` facts used by C4, C6 and C10 -/

lemma fromhexCore_ok_val :
    ∀ (n : Nat) (l : List Char), l.length ≤ n →
      ∀ bs, fromhexCore l = Except.ok bs →
        ∀ acc : Nat,
          List.foldl (fun a b => 256 * a + b) acc bs
            = List.foldl (fun a c => 16 * a + hexVal c) acc
                (l.filter (fun c => !wsChar c)) := by
  intro n
  induction n with
  | zero =>
    intro l hl bs h acc
    have hl0 : l = [] := List.eq_nil_of_length_eq_zero (Nat.le_zero.mp hl)
    subst hl0
    simp [fromhexCore] at h
    subst h
    rfl
  | succ n ih =>
    intro l hl bs h acc
    cases l with
    | nil =>
      simp [fromhexCore] at h
      subst h
      rfl
    | cons c cs =>
      cases cs with
      | nil =>
        by_cases hw : wsChar c
        · simp [fromhexCore, hw] at h
          subst h
          simp [List.filter_cons, hw]
        · have hwf : wsChar c = false := by simp [hw]
          by_cases hx : isHexDigitC c
          · simp [fromhexCore, hwf, hx] at h
          · simp [fromhexCore, hwf, hx] at h
      | cons d rest =>
        by_cases hw : wsChar c
        · simp only [fromhexCore, hw, if_true] at h
          have hfil : List.filter (fun x => !wsChar x) (c :: d :: rest)
              = List.filter (fun x => !wsChar x) (d :: rest) := by
            simp [List.filter_cons, hw]
          rw [hfil]
          exact ih (d :: rest) (by simp at hl ⊢; omega) bs h acc
        · have hwf : wsChar c = false := by simp [hw]
          by_cases hx : isHexDigitC c
          · by_cases hxd : isHexDigitC d
            · simp only [fromhexCore, hwf, hx, hxd, if_true, Bool.false_eq_true, if_false] at h
              cases hr : fromhexCore rest with
              | error e => rw [hr] at h; simp [Except.map] at h
              | ok bs2 =>
                rw [hr] at h
                simp [Except.map] at h
                subst h
                have hwd : wsChar d = false := hex_not_ws hxd
                simp only [List.filter_cons, hwf, hwd, Bool.not_false, if_true]
                have := ih rest (by simp at hl; omega) bs2 hr
                  (16 * (16 * acc + hexVal c) + hexVal d)
                simp only [List.foldl]
                rw [← this]
                congr 1
                ring
            · simp [fromhexCore, hwf, hx, hxd] at h
          · simp [fromhexCore, hwf, hx] at h

lemma fromhexCore_ok_len :
    ∀ (n : Nat) (l : List Char), l.length ≤ n →
      ∀ bs, fromhexCore l = Except.ok bs →
        2 * bs.length = (l.filter (fun c => !wsChar c)).length := by
  intro n
  induction n with
  | zero =>
    intro l hl bs h
    have hl0 : l = [] := List.eq_nil_of_length_eq_zero (Nat.le_zero.mp hl)
    subst hl0
    simp [fromhexCore] at h
    subst h
    rfl
  | succ n ih =>
    intro l hl bs h
    cases l with
    | nil =>
      simp [fromhexCore] at h
      subst h
      rfl
    | cons c cs =>
      cases cs with
      | nil =>
        by_cases hw : wsChar c
        · simp [fromhexCore, hw] at h
          subst h
          simp [List.filter_cons, hw]
        · have hwf : wsChar c = false := by simp [hw]
          by_cases hx : isHexDigitC c
          · simp [fromhexCore, hwf, hx] at h
          · simp [fromhexCore, hwf, hx] at h
      | cons d rest =>
        by_cases hw : wsChar c
        · simp only [fromhexCore, hw, if_true] at h
          have hfil : List.filter (fun x => !wsChar x) (c :: d :: rest)
              = List.filter (fun x => !wsChar x) (d :: rest) := by
            simp [List.filter_cons, hw]
          rw [hfil]
          exact ih (d :: rest) (by simp at hl ⊢; omega) bs h
        · have hwf : wsChar c = false := by simp [hw]
          by_cases hx : isHexDigitC c
          · by_cases hxd : isHexDigitC d
            · simp only [fromhexCore, hwf, hx, hxd, if_true, Bool.false_eq_true, if_false] at h
              cases hr : fromhexCore rest with
              | error e => rw [hr] at h; simp [Except.map] at h
              | ok bs2 =>
                rw [hr] at h
                simp [Except.map] at h
                subst h
                have hwd : wsChar d = false := hex_not_ws hxd
                simp only [List.filter_cons, hwf, hwd, Bool.not_false, if_true,
                  List.length_cons]
                have := ih rest (by simp at hl; omega) bs2 hr
                omega
            · simp [fromhexCore, hwf, hx, hxd] at h
          · simp [fromhexCore, hwf, hx] at h

lemma fromhexCore_odd_err :
    ∀ (n : Nat) (l : List Char), l.length ≤ n →
      l.all isHexDigitC = true → l.length % 2 = 1 →
        fromhexCore l = Except.error hexErrMsg := by
  intro n
  induction n with
  | zero =>
    intro l hl _ hodd
    have hl0 : l = [] := List.eq_nil_of_length_eq_zero (Nat.le_zero.mp hl)
    subst hl0
    simp at hodd
  | succ n ih =>
    intro l hl hall hodd
    cases l with
    | nil => simp at hodd
    | cons c cs =>
      have hx : isHexDigitC c = true := by
        simp [List.all_cons] at hall
        exact hall.1
      have hwf : wsChar c = false := hex_not_ws hx
      cases cs with
      | nil => simp [fromhexCore, hwf, hx]
      | cons d rest =>
        have hxd : isHexDigitC d = true := by
          simp [List.all_cons] at hall
          exact hall.2.1
        have hallr : rest.all isHexDigitC = true := by
          simp [List.all_cons] at hall
          simpa using hall.2.2
        have hoddr : rest.length % 2 = 1 := by
          simp [List.length_cons] at hodd ⊢
          omega
        have hr := ih rest (by simp at hl; omega) hallr hoddr
        simp [fromhexCore, hwf, hx, hxd, hr, Except.map]

/-! ### The transport port and the EEPROM transactor
(source lines 159-189)

A `Port` gives the outcome of each write and read the bus would perform
(`Except.error` models an `I2cNackError`-style bus failure).  Every
transactor function returns the ordered list of port operations it
attempted (`POp`) together, with its Python return value or the exception
it raised. -/

inductive POp : Type
  | write (bs : List Nat)
  | read (n : Nat)
deriving DecidableEq

inductive PErr : Type
  | transport (msg : String)
  | overflow (msg : String)
  | other (msg : String)
deriving DecidableEq

structure Port where
  w : List Nat → Except String Unit
  r : Nat → Except String (List Nat)

/-- A port on which every transaction succeeds; reads return zero bytes. -/
def okPort : Port :=
  { w := fun _ => Except.ok (), r := fun n => Except.ok (List.replicate n 0) }

/-- A port whose every transaction fails with a no-acknowledgment error. -/
def nackPort : Port :=
  { w := fun _ => Except.error "NACK from slave", r := fun _ => Except.error "NACK from slave" }

/-- The unconditional tail of `eeprom_page_write`: write
`(command or b"") + address + data` as one transaction, then return
`(data, int.from_bytes(address) + len(data) re-encoded)`. -/
def pageWriteBody (p : Port) (address data : List Nat) (command : Option (List Nat)) :
    List POp × Except PErr (List Nat × List Nat) :=
  let frame := command.getD [] ++ address ++ data
  match p.w frame with
  | Except.error e => ([POp.write frame], Except.error (PErr.transport e))
  | Except.ok _ =>
    match to_bytes (from_bytes address + data.length) address.length with
    | Except.error e => ([POp.write frame], Except.error (PErr.overflow e))
    | Except.ok next => ([POp.write frame], Except.ok (data, next))

/-- Embedding of `eeprom_page_write(eeprom, address, data, command, write_enable)`:
when `write_enable[0]`, first write `write_enable[1]` as its own transaction,
then proceed as `pageWriteBody`. -/
def eeprom_page_write (p : Port) (address data : List Nat)
    (command : Option (List Nat)) (write_enable : Bool × List Nat) :
    List POp × Except PErr (List Nat × List Nat) :=
  if write_enable.1 then
    match p.w write_enable.2 with
    | Except.error e => ([POp.write write_enable.2], Except.error (PErr.transport e))
    | Except.ok _ =>
      let (ops, res) := pageWriteBody p address data command
      (POp.write write_enable.2 :: ops, res)
  else pageWriteBody p address data command

/-- Embedding of `eeprom_write(eeprom, address, data, command)`: one transaction
`(command or b"") + address + data`, next address is `address + 1` re-encoded. -/
def eeprom_write (p : Port) (address data : List Nat) (command : Option (List Nat)) :
    List POp × Except PErr (List Nat × List Nat) :=
  let frame := command.getD [] ++ address ++ data
  match p.w frame with
  | Except.error e => ([POp.write frame], Except.error (PErr.transport e))
  | Except.ok _ =>
    match to_bytes (from_bytes address + 1) address.length with
    | Except.error e => ([POp.write frame], Except.error (PErr.overflow e))
    | Except.ok next => ([POp.write frame], Except.ok (data, next))

/-- Embedding of `eeprom_read(eeprom, address, n, command)`: write
`(command or b"") + address` to set the device pointer, read `n` bytes,
next address is `address + n` re-encoded. -/
def eeprom_read (p : Port) (address : List Nat) (n : Nat) (command : Option (List Nat)) :
    List POp × Except PErr (List Nat × List Nat) :=
  let frame := command.getD [] ++ address
  match p.w frame with
  | Except.error e => ([POp.write frame], Except.error (PErr.transport e))
  | Except.ok _ =>
    match p.r n with
    | Except.error e => ([POp.write frame, POp.read n], Except.error (PErr.transport e))
    | Except.ok data =>
      match to_bytes (from_bytes address + n) address.length with
      | Except.error e => ([POp.write frame, POp.read n], Except.error (PErr.overflow e))
      | Except.ok next => ([POp.write frame, POp.read n], Except.ok (data, next))

/-! #### Evaluation helpers for the transactor -/

lemma pageWriteBody_ok {p : Port} (hw : ∀ bs, p.w bs = Except.ok ())
    (address data : List Nat) (command : Option (List Nat))
    (hlt : from_bytes address + data.length < 256 ^ address.length) :
    pageWriteBody p address data command
      = ([POp.write (command.getD [] ++ address ++ data)],
          Except.ok (data, natToBe (from_bytes address + data.length) address.length)) := by
  simp [pageWriteBody, hw, to_bytes_ok hlt]

lemma pageWriteBody_overflow {p : Port} (hw : ∀ bs, p.w bs = Except.ok ())
    (address data : List Nat) (command : Option (List Nat))
    (hge : 256 ^ address.length ≤ from_bytes address + data.length) :
    pageWriteBody p address data command
      = ([POp.write (command.getD [] ++ address ++ data)],
          Except.error (PErr.overflow "int too big to convert")) := by
  simp [pageWriteBody, hw, to_bytes_err hge]

lemma eeprom_page_write_ok {p : Port} (hw : ∀ bs, p.w bs = Except.ok ())
    (address data : List Nat) (command : Option (List Nat)) (we : Bool × List Nat)
    (hlt : from_bytes address + data.length < 256 ^ address.length) :
    eeprom_page_write p address data command we
      = ((if we.1 then [POp.write we.2] else [])
            ++ [POp.write (command.getD [] ++ address ++ data)],
          Except.ok (data, natToBe (from_bytes address + data.length) address.length)) := by
  cases hwe : we.1 <;>
    simp [eeprom_page_write, hwe, hw, pageWriteBody_ok hw address data command hlt]

lemma eeprom_page_write_overflow {p : Port} (hw : ∀ bs, p.w bs = Except.ok ())
    (address data : List Nat) (command : Option (List Nat)) (we : Bool × List Nat)
    (hge : 256 ^ address.length ≤ from_bytes address + data.length) :
    eeprom_page_write p address data command we
      = ((if we.1 then [POp.write we.2] else [])
            ++ [POp.write (command.getD [] ++ address ++ data)],
          Except.error (PErr.overflow "int too big to convert")) := by
  cases hwe : we.1 <;>
    simp [eeprom_page_write, hwe, hw, pageWriteBody_overflow hw address data command hge]

lemma eeprom_read_ok {p : Port} (hw : ∀ bs, p.w bs = Except.ok ())
    (address : List Nat) (n : Nat) (command : Option (List Nat)) {rb : List Nat}
    (hr : p.r n = Except.ok rb)
    (hlt : from_bytes address + n < 256 ^ address.length) :
    eeprom_read p address n command
      = ([POp.write (command.getD [] ++ address), POp.read n],
          Except.ok (rb, natToBe (from_bytes address + n) address.length)) := by
  simp [eeprom_read, hw, hr, to_bytes_ok hlt]

/-! ### `i2c_protocol_parse` (source lines 54-156)

The Python function returns a dict whose `"commands"` entries pair an
interactive closure with the command byte used for framing; only the
command byte is protocol data, so the embedding keeps the dict as a record
with the command-byte table.  The function touches no port. -/

structure Protocol where
  device : String
  address_size : Nat
  page_size : Nat
  write_enable : Bool × List Nat
  commands : List (String × Option (List Nat))
deriving DecidableEq

/-- The `"24LC32"` protocol descriptor. -/
def proto24 : Protocol :=
  { device := "24LC32"
    address_size := 12
    page_size := 32
    write_enable := (false, [])
    commands := [("Page Write", none), ("Single Write", none), ("Read", none)] }

/-- The `"ZL30267"` protocol descriptor (its `"Single Write"` entry is
commented out in the source). -/
def protoZL : Protocol :=
  { device := "ZL30267"
    address_size := 12
    page_size := 32
    write_enable := (true, [0x06])
    commands := [("Page Write", some [0x02]), ("Read", some [0x03])] }

/-- Embedding of `i2c_protocol_parse(device)`: the static two-entry device
table; any other name raises `ValueError("Invalid Device")`. -/
def i2c_protocol_parse (device : String) : Except String Protocol :=
  if device = "24LC32" then Except.ok proto24
  else if device = "ZL30267" then Except.ok protoZL
  else Except.error "Invalid Device"

/-- Command byte bound to a named operation, `device["commands"][name][1]`. -/
def getCmd (proto : Protocol) (name : String) : Option (List Nat) :=
  match proto.commands.lookup name with
  | some c => c
  | none => none

/-! ### `zl_eeprom_image_parse` (source lines 30-51)

The file system is external: the embedding takes the file name and the list
of lines the opened file yields.  All exceptions the Python function raises
(`ValueError`/`TypeError` re-wrappings) are collapsed into `Except.error`
with the underlying message. -/

/-- Characters after the last `'/'`, as in `os.path.basename`. -/
def basenameChars (l : List Char) : List Char :=
  (l.reverse.takeWhile (fun c => c ≠ '/')).reverse

/-- The extension `os.path.splitext(name)[1]`: the suffix of the basename
from its last dot, where the leading dots of the basename never begin an
extension. -/
def splitextExt (l : List Char) : List Char :=
  let b := basenameChars l
  let core := b.dropWhile (fun c => c = '.')
  if core.contains '.' then '.' :: (core.reverse.takeWhile (fun c => c ≠ '.')).reverse
  else []

/-- `strip0x` removes one leading `0x`/`0X`, as `int(_, 16)` accepts. -/
def strip0x (t : List Char) : List Char :=
  match t with
  | '0' :: x :: r => if x = 'x' || x = 'X' then r else t
  | _ => t

/-- Base-16 value of a nonempty all-hex-digit string, else `none`. -/
def hexValAll (l : List Char) : Option Nat :=
  if !l.isEmpty && l.all isHexDigitC then
    some (l.foldl (fun a c => 16 * a + hexVal c) 0)
  else none

/-- Model of Python `int(line, 16)`: surrounding whitespace stripped, an
optional sign, an optional `0x` prefix, then hexadecimal digits.  (Digit
grouping with underscores is not modelled; no input considered here uses
it.) -/
def pyIntHex (l : List Char) : Option Int :=
  match pyStrip l with
  | '+' :: r => (hexValAll (strip0x r)).map (fun n => (n : Int))
  | '-' :: r => (hexValAll (strip0x r)).map (fun n => -(n : Int))
  | t => (hexValAll (strip0x t)).map (fun n => (n : Int))

/-- One line of the image file: `int(line, 16).to_bytes(1, "big")`, i.e. a
single byte value in `[0, 256)`; anything else raises. -/
def lineByte (line : List Char) : Except String Nat :=
  match pyIntHex line with
  | none => Except.error "invalid literal for int() with base 16"
  | some v => if 0 ≤ v ∧ v < 256 then Except.ok v.toNat else Except.error "int to_bytes overflow"

/-- The line loop of `zl_eeprom_image_parse`: a line containing `';'` is
skipped entirely; every other line contributes one byte, in file order. -/
def zlLines : List (List Char) → Except String (List Nat)
  | [] => Except.ok []
  | line :: rest =>
    if line.contains ';' then zlLines rest
    else
      match lineByte line with
      | Except.error e => Except.error e
      | Except.ok b => (zlLines rest).map (fun bs => b :: bs)

/-- Embedding of `zl_eeprom_image_parse(file_name)` over the lines the file
holds: the extension must be `".txt"` (checked before any read), then the
line loop runs. -/
def zl_eeprom_image_parse (fileName : String) (lines : List String) :
    Except String (List Nat) :=
  if splitextExt fileName.data ≠ ('.' :: 't' :: 'x' :: 't' :: []) then
    Except.error "Invalid file extension"
  else zlLines (lines.map String.data)

/-- The image the specification describes: drop every line containing the
comment marker, then read each remaining line as one hex byte, in order. -/
def specImageBytes : List (List Char) → Except String (List Nat)
  | [] => Except.ok []
  | line :: rest =>
    match lineByte line with
    | Except.error e => Except.error e
    | Except.ok b => (specImageBytes rest).map (fun bs => b :: bs)

/-! ### `file_mode` (source lines 219-250) and its helpers -/

/-- Embedding of `eeprom_i2c_config(eeprom, device)`: the ZL30267 gets one
configuration write `eeprom_write(eeprom, b"\x00\x00", b"\x80", command=b"\x02")`;
every other device needs nothing. -/
def eeprom_i2c_config (p : Port) (device : String) : List POp × Except PErr Unit :=
  if device = "ZL30267" then
    let (ops, res) := eeprom_write p [0, 0] [0x80] (some [0x02])
    (ops, res.map (fun _ => ()))
  else ([], Except.ok ())

/-- The page-write loop of `file_mode`
(`for i in range(0, len(image), page_size): cur_address = eeprom_page_write(...)[1]`).
Returns the trace of each loop iteration (one page-write transaction per
element) and either the final cursor or the exception that stopped the loop.
A zero `page_size` cannot occur from the device table; it is mapped to the
`ValueError` Python `range` would raise. -/
def writeLoop (p : Port) (cmd : Option (List Nat)) (we : Bool × List Nat) (ps : Nat) :
    List Nat → List Nat → List (List POp) × Except PErr (List Nat)
  | cur, [] => ([], Except.ok cur)
  | cur, b :: rest =>
    if hps : ps = 0 then ([], Except.error (PErr.other "range() arg 3 must not be zero"))
    else
      let img := b :: rest
      let (ops, res) := eeprom_page_write p cur (img.take ps) cmd we
      match res with
      | Except.error e => ([ops], Except.error e)
      | Except.ok x =>
        let (txs, res2) := writeLoop p cmd we ps x.2 (img.drop ps)
        (ops :: txs, res2)
termination_by cur img => img.length
decreasing_by simp [img]; omega

/-- The observable behaviour of one `file_mode` run:
the configuration-phase port operations, the page-write transactions (one
trace per `eeprom_page_write` call), the verification-read port operations,
and the returned string or the exception raised. -/
structure FMRun where
  cfgOps : List POp
  pageTxs : List (List POp)
  readOps : List POp
  outcome : Except PErr String

/-- Embedding of `file_mode(eeprom, args)` for a given protocol and image:
configure the device, write the image page by page from address zero with
the device's `"Page Write"` command byte and write-enable setting, then
read `len(image)` bytes from address zero with the `"Read"` command byte
and compare them with the image. -/
def file_mode (p : Port) (proto : Protocol) (image : List Nat) : FMRun :=
  let (cfgOps, cfgRes) := eeprom_i2c_config p proto.device
  match cfgRes with
  | Except.error e => ⟨cfgOps, [], [], Except.error e⟩
  | Except.ok _ =>
    if proto.page_size = 0 then
      ⟨cfgOps, [], [], Except.error (PErr.other "range() arg 3 must not be zero")⟩
    else
      let (txs, wres) :=
        writeLoop p (getCmd proto "Page Write") proto.write_enable proto.page_size [0, 0] image
      match wres with
      | Except.error e => ⟨cfgOps, txs, [], Except.error e⟩
      | Except.ok _ =>
        let (rOps, rres) := eeprom_read p [0, 0] image.length (getCmd proto "Read")
        match rres with
        | Except.error e => ⟨cfgOps, txs, rOps, Except.error e⟩
        | Except.ok x =>
          ⟨cfgOps, txs, rOps,
            Except.ok (if x.1 = image then "Successful eeprom flash" else "Unseccessful eeprom flash")⟩

/-- The page-write transaction sequence the specification describes:
consecutive `page_size`-byte slices of the image (the last possibly
shorter), at ascending two-byte addresses starting from `addr`, each
framed with the device's command byte and preceded by its write-enable
transaction when the device requires one. -/
def specPageTrace (cmd : Option (List Nat)) (we : Bool × List Nat) (ps : Nat) :
    Nat → List Nat → List (List POp)
  | _, [] => []
  | addr, b :: rest =>
    if hps : ps = 0 then []
    else
      let img := b :: rest
      ((if we.1 then [POp.write we.2] else [])
          ++ [POp.write (cmd.getD [] ++ natToBe addr 2 ++ img.take ps)])
        :: specPageTrace cmd we ps (addr + (img.take ps).length) (img.drop ps)
termination_by addr img => img.length
decreasing_by simp [img]; omega

/-! #### Write-loop lemmas -/

lemma writeLoop_ok (p : Port) (hw : ∀ bs, p.w bs = Except.ok ())
    (cmd : Option (List Nat)) (we : Bool × List Nat) (ps : Nat) (hps : ps ≠ 0) :
    ∀ (n : Nat) (img : List Nat), img.length ≤ n → ∀ a : Nat, a + img.length ≤ 65535 →
      writeLoop p cmd we ps (natToBe a 2) img
        = (specPageTrace cmd we ps a img, Except.ok (natToBe (a + img.length) 2)) := by
  intro n
  induction n with
  | zero =>
    intro img hl a ha
    have h0 : img = [] := List.eq_nil_of_length_eq_zero (Nat.le_zero.mp hl)
    subst h0
    simp [writeLoop, specPageTrace]
  | succ n ih =>
    intro img hl a ha
    cases img with
    | nil => simp [writeLoop, specPageTrace]
    | cons b rest =>
      have ha2 : a < 256 ^ 2 := by norm_num; simp at ha; omega
      have haddr : from_bytes (natToBe a 2) = a := from_bytes_natToBe 2 a ha2
      have hlen2 : (natToBe a 2).length = 2 := natToBe_length 2 a
      have hklt : from_bytes (natToBe a 2) + ((b :: rest).take ps).length
          < 256 ^ (natToBe a 2).length := by
        rw [haddr, hlen2, List.length_take]
        simp at ha ⊢
        norm_num
        omega
      simp only [writeLoop]
      rw [dif_neg hps]
      simp only [eeprom_page_write_ok hw (natToBe a 2) ((b :: rest).take ps) cmd we hklt]
      have hrec := ih ((b :: rest).drop ps)
        (by simp [List.length_drop] at hl ⊢; omega)
        (a + ((b :: rest).take ps).length)
        (by simp [List.length_take, List.length_drop] at ha ⊢; omega)
      rw [haddr, hlen2]
      rw [hrec]
      have hfin : a + ((b :: rest).take ps).length + ((b :: rest).drop ps).length
          = a + (b :: rest).length := by
        simp [List.length_take, List.length_drop]
        omega
      rw [hfin]
      conv_rhs => rw [specPageTrace]
      rw [dif_neg hps]

lemma writeLoop_err (p : Port) (hw : ∀ bs, p.w bs = Except.ok ())
    (cmd : Option (List Nat)) (we : Bool × List Nat) (ps : Nat) (hps : ps ≠ 0) :
    ∀ (n : Nat) (img : List Nat), img.length ≤ n → img ≠ [] →
      ∀ a : Nat, a ≤ 65535 → 65536 ≤ a + img.length →
        ∃ e, (writeLoop p cmd we ps (natToBe a 2) img).2 = Except.error e := by
  intro n
  induction n with
  | zero =>
    intro img hl hne a _ _
    exact absurd (List.eq_nil_of_length_eq_zero (Nat.le_zero.mp hl)) hne
  | succ n ih =>
    intro img hl hne a ha hover
    cases img with
    | nil => exact absurd rfl hne
    | cons b rest =>
      have ha2 : a < 256 ^ 2 := by norm_num; omega
      have haddr : from_bytes (natToBe a 2) = a := from_bytes_natToBe 2 a ha2
      have hlen2 : (natToBe a 2).length = 2 := natToBe_length 2 a
      have hk : ((b :: rest).take ps).length = min ps (rest.length + 1) := by
        simp [List.length_take]
      by_cases hbig : 65536 ≤ a + ((b :: rest).take ps).length
      · have hge : 256 ^ (natToBe a 2).length
            ≤ from_bytes (natToBe a 2) + ((b :: rest).take ps).length := by
          rw [haddr, hlen2, hk]
          rw [hk] at hbig
          norm_num
          omega
        simp only [writeLoop]
        rw [dif_neg hps]
        simp only [eeprom_page_write_overflow hw (natToBe a 2) ((b :: rest).take ps) cmd we hge]
        exact ⟨PErr.overflow "int too big to convert", rfl⟩
      · have hklt : from_bytes (natToBe a 2) + ((b :: rest).take ps).length
            < 256 ^ (natToBe a 2).length := by
          rw [haddr, hlen2, hk]
          rw [hk] at hbig
          norm_num
          omega
        have hlt' : a + ((b :: rest).take ps).length ≤ 65535 := by
          rw [hk]
          rw [hk] at hbig
          omega
        have hpslt : ps < (b :: rest).length := by
          rw [hk] at hbig
          simp only [List.length_cons] at hover ⊢
          omega
        have hdropne : (b :: rest).drop ps ≠ [] := by
          intro hcon
          have h2 := congrArg List.length hcon
          rw [List.length_drop] at h2
          simp only [List.length_cons, List.length_nil] at h2 hpslt
          omega
        simp only [writeLoop]
        rw [dif_neg hps]
        simp only [eeprom_page_write_ok hw (natToBe a 2) ((b :: rest).take ps) cmd we hklt]
        rw [haddr, hlen2]
        have hrec := ih ((b :: rest).drop ps)
          (by rw [List.length_drop]; simp at hl ⊢; omega)
          hdropne
          (a + ((b :: rest).take ps).length)
          hlt'
          (by rw [List.length_take, List.length_drop]; simp at hover ⊢; omega)
        obtain ⟨e, he⟩ := hrec
        exact ⟨e, he⟩

/-! #### `file_mode` evaluation helpers -/

lemma parse_cases {name : String} {proto : Protocol}
    (hp : i2c_protocol_parse name = Except.ok proto) :
    proto = proto24 ∨ proto = protoZL := by
  by_cases h1 : name = "24LC32"
  · left
    simp [i2c_protocol_parse, h1] at hp
    exact hp.symm
  · by_cases h2 : name = "ZL30267"
    · right
      simp [i2c_protocol_parse, h1, h2] at hp
      exact hp.symm
    · simp [i2c_protocol_parse, h1, h2] at hp

lemma config_ok {p : Port} (hw : ∀ bs, p.w bs = Except.ok ()) (device : String) :
    eeprom_i2c_config p device
      = ((if device = "ZL30267" then [POp.write [0x02, 0, 0, 0x80]] else []),
          Except.ok ()) := by
  by_cases h : device = "ZL30267" <;>
    simp [eeprom_i2c_config, h, eeprom_write, hw, from_bytes, to_bytes, natToBe, Except.map]

lemma file_mode_eval (p : Port) (proto : Protocol) (image : List Nat) (cfg : List POp)
    (hw : ∀ bs, p.w bs = Except.ok ())
    (hps : proto.page_size ≠ 0)
    (hcfg : eeprom_i2c_config p proto.device = (cfg, Except.ok ()))
    (hlen : image.length ≤ 65535) :
    file_mode p proto image
      = ⟨cfg,
          specPageTrace (getCmd proto "Page Write") proto.write_enable proto.page_size 0 image,
          [POp.write ((getCmd proto "Read").getD [] ++ [0, 0]), POp.read image.length],
          match p.r image.length with
          | Except.error e => Except.error (PErr.transport e)
          | Except.ok rb =>
              Except.ok (if rb = image then "Successful eeprom flash"
                else "Unseccessful eeprom flash")⟩ := by
  have hwl : writeLoop p (getCmd proto "Page Write") proto.write_enable proto.page_size
      [0, 0] image
      = (specPageTrace (getCmd proto "Page Write") proto.write_enable proto.page_size 0 image,
          Except.ok (natToBe image.length 2)) := by
    have h0 := writeLoop_ok p hw (getCmd proto "Page Write") proto.write_enable proto.page_size
      hps image.length image le_rfl 0 (by omega)
    rw [Nat.zero_add] at h0
    exact h0
  have hrd : from_bytes ([0, 0] : List Nat) + image.length
      < 256 ^ ([0, 0] : List Nat).length := by
    simp only [from_bytes, List.foldl, List.length_cons, List.length_nil]
    norm_num
    omega
  cases hr : p.r image.length with
  | error e =>
    have hread : eeprom_read p [0, 0] image.length (getCmd proto "Read")
        = ([POp.write ((getCmd proto "Read").getD [] ++ [0, 0]), POp.read image.length],
            Except.error (PErr.transport e)) := by
      simp [eeprom_read, hw, hr]
    simp [file_mode, hcfg, hps, hwl, hread, hr]
  | ok rb =>
    have hread := eeprom_read_ok hw [0, 0] image.length (getCmd proto "Read") hr hrd
    simp [file_mode, hcfg, hps, hwl, hread, hr]

lemma specPageTrace_len32 (cmd : Option (List Nat)) (we : Bool × List Nat) :
    ∀ (n : Nat) (img : List Nat), img.length ≤ n → ∀ a : Nat,
      (specPageTrace cmd we 32 a img).length = (img.length + 31) / 32 := by
  intro n
  induction n with
  | zero =>
    intro img hl a
    have h0 : img = [] := List.eq_nil_of_length_eq_zero (Nat.le_zero.mp hl)
    subst h0
    simp [specPageTrace]
  | succ n ih =>
    intro img hl a
    cases img with
    | nil => simp [specPageTrace]
    | cons b rest =>
      rw [specPageTrace]
      rw [dif_neg (by norm_num : (32 : Nat) ≠ 0)]
      simp only [List.length_cons]
      rw [ih ((b :: rest).drop 32) (by simp at hl ⊢; omega) _]
      rw [List.length_drop]
      simp only [List.length_cons]
      omega

/-! ### Claim theorems -/

/-- C1 (amended): for every device protocol from the table and every image of
at most 65535 bytes, `file_mode` issues exactly the page-write transactions
the specification describes — consecutive `page_size`-byte slices of the
image (the last possibly shorter) at ascending two-byte addresses starting
from zero, each framed with the device's Page Write command byte and
write-enable setting — and the write loop finishes normally with cursor
`len(image)`.  (For longer images the two-byte cursor re-encoding in
`eeprom_page_write` raises `OverflowError` part-way; see the
counterexample.) -/
theorem flash_writes_consecutive_pages :
    ∀ (name : String) (proto : Protocol) (p : Port) (image : List Nat),
      i2c_protocol_parse name = Except.ok proto →
      (∀ bs, p.w bs = Except.ok ()) →
      image.length ≤ 65535 →
      (file_mode p proto image).pageTxs
          = specPageTrace (getCmd proto "Page Write") proto.write_enable proto.page_size 0 image
      ∧ (writeLoop p (getCmd proto "Page Write") proto.write_enable proto.page_size
            [0, 0] image).2
          = Except.ok (natToBe image.length 2)
      ∧ (specPageTrace (getCmd proto "Page Write") proto.write_enable proto.page_size
            0 image).length = (image.length + 31) / 32 := by
  intro name proto p image hp hw hlen
  have hps : proto.page_size ≠ 0 := by
    rcases parse_cases hp with h | h <;> subst h <;> decide
  have hcfg := config_ok hw proto.device
  have heval := file_mode_eval p proto image _ hw hps hcfg hlen
  refine ⟨by rw [heval], ?_, ?_⟩
  · have h0 := writeLoop_ok p hw (getCmd proto "Page Write") proto.write_enable proto.page_size
      hps image.length image le_rfl 0 (by omega)
    rw [Nat.zero_add] at h0
    have h1 : writeLoop p (getCmd proto "Page Write") proto.write_enable proto.page_size
        [0, 0] image
        = (specPageTrace (getCmd proto "Page Write") proto.write_enable proto.page_size 0 image,
            Except.ok (natToBe image.length 2)) := h0
    rw [h1]
  · have h32 : proto.page_size = 32 := by
      rcases parse_cases hp with h | h <;> subst h <;> rfl
    rw [h32]
    exact specPageTrace_len32 _ _ image.length image le_rfl 0

/-- C1 witness: on the 40-byte image, the loop issues the specified trace,
and that trace has exactly `(40 + 31) / 32 = 2` page-write transactions. -/
theorem flash_writes_consecutive_pages_witness :
    (List.replicate 40 7).length ≤ 65535
    ∧ (file_mode okPort proto24 (List.replicate 40 7)).pageTxs
        = specPageTrace (getCmd proto24 "Page Write") proto24.write_enable proto24.page_size 0
            (List.replicate 40 7)
    ∧ (specPageTrace (getCmd proto24 "Page Write") proto24.write_enable proto24.page_size 0
          (List.replicate 40 7)).length = 2 := by
  have h := flash_writes_consecutive_pages "24LC32" proto24 okPort (List.replicate 40 7)
    rfl (fun _ => rfl) (by simp)
  refine ⟨by simp, h.1, ?_⟩
  rw [h.2.2]
  simp


/-- C1 counterexample: the claim as stated fails for an image longer than
the two-byte address cursor can count.  On a 65537-byte image the write
loop raises `OverflowError` from `int.to_bytes` (after writing the page at
address 65504 and before the final one-byte slice), so `file_mode` does
not complete the specified page-write sequence. -/
theorem flash_writes_consecutive_pages_cex :
    ¬ ((file_mode okPort proto24 (List.replicate 65537 0)).pageTxs
          = specPageTrace (getCmd proto24 "Page Write") proto24.write_enable proto24.page_size 0
              (List.replicate 65537 0)
        ∧ (writeLoop okPort (getCmd proto24 "Page Write") proto24.write_enable
              proto24.page_size [0, 0] (List.replicate 65537 0)).2
            = Except.ok (natToBe (List.replicate 65537 0).length 2)) := by
  rintro ⟨-, h2⟩
  have hlenr : (List.replicate 65537 (0 : Nat)).length = 65537 := List.length_replicate 65537 0
  have hfuel : (List.replicate 65537 (0 : Nat)).length ≤ 65537 := by rw [hlenr]
  have hne : List.replicate 65537 (0 : Nat) ≠ [] := by
    intro hcon
    have h9 := congrArg List.length hcon
    rw [hlenr] at h9
    exact absurd h9 (by norm_num)
  have hover : (65536 : Nat) ≤ 0 + (List.replicate 65537 (0 : Nat)).length := by
    rw [hlenr]
    norm_num
  have herr := writeLoop_err okPort (fun _ => rfl) (getCmd proto24 "Page Write")
    proto24.write_enable proto24.page_size (by decide) 65537 (List.replicate 65537 0)
    hfuel hne 0 (by norm_num) hover
  obtain ⟨e, he⟩ := herr
  have h00 : (natToBe 0 2 : List Nat) = [0, 0] := rfl
  rw [h00] at he
  rw [h2] at he
  exact Except.noConfusion he

/-- C2: whenever the writing phase completes (image fits the two-byte
cursor), `file_mode` issues exactly one read transaction of `len(image)`
bytes from address zero framed with the device's Read command byte, and
returns — as a normal value, not an exception — the success string when
the bytes read back equal the image and the mismatch string otherwise. -/
theorem flash_verifies_by_full_readback :
    ∀ (name : String) (proto : Protocol) (p : Port) (image rb : List Nat),
      i2c_protocol_parse name = Except.ok proto →
      (∀ bs, p.w bs = Except.ok ()) →
      p.r image.length = Except.ok rb →
      image.length ≤ 65535 →
      (file_mode p proto image).readOps
          = [POp.write ((getCmd proto "Read").getD [] ++ [0, 0]), POp.read image.length]
      ∧ (file_mode p proto image).outcome
          = Except.ok (if rb = image then "Successful eeprom flash"
              else "Unseccessful eeprom flash") := by
  intro name proto p image rb hp hw hr hlen
  have hps : proto.page_size ≠ 0 := by
    rcases parse_cases hp with h | h <;> subst h <;> decide
  have heval := file_mode_eval p proto image _ hw hps (config_ok hw proto.device) hlen
  rw [heval]
  exact ⟨rfl, by rw [hr]⟩

/-- C2 witness: a matching read-back reports the success string and a
mismatching one reports the mismatch string, after one read of
`len(image)` bytes with the ZL30267's read opcode `0x03`. -/
theorem flash_verifies_by_full_readback_witness :
    (file_mode okPort protoZL [0, 0]).outcome = Except.ok "Successful eeprom flash"
    ∧ (file_mode okPort protoZL [1, 2]).outcome = Except.ok "Unseccessful eeprom flash"
    ∧ (file_mode okPort protoZL [1, 2]).readOps = [POp.write [3, 0, 0], POp.read 2] := by
  have h1 := flash_verifies_by_full_readback "ZL30267" protoZL okPort [0, 0]
    (List.replicate 2 0) rfl (fun _ => rfl) rfl (by norm_num)
  have h2 := flash_verifies_by_full_readback "ZL30267" protoZL okPort [1, 2]
    (List.replicate 2 0) rfl (fun _ => rfl) rfl (by norm_num)
  refine ⟨h1.2.trans (by rfl), h2.2.trans (by rfl), h2.1.trans (by rfl)⟩

/-! #### Result-shape lemmas for the transactor -/

lemma to_bytes_ok_elim {v w : Nat} {bs : List Nat} (h : to_bytes v w = Except.ok bs) :
    v < 256 ^ w ∧ bs = natToBe v w := by
  by_cases hv : v < 256 ^ w
  · rw [to_bytes_ok hv] at h
    simp at h
    exact ⟨hv, h.symm⟩
  · rw [to_bytes_err (by omega)] at h
    simp at h

lemma pageWriteBody_ok_elim {p : Port} {a d : List Nat} {c : Option (List Nat)}
    {d2 next : List Nat} (h : (pageWriteBody p a d c).2 = Except.ok (d2, next)) :
    next.length = a.length ∧ from_bytes next = from_bytes a + d.length := by
  simp only [pageWriteBody] at h
  rcases hpw : p.w (c.getD [] ++ a ++ d) with e | u <;> rw [hpw] at h
  · simp at h
  · rcases htb : to_bytes (from_bytes a + d.length) a.length with e | nx <;> rw [htb] at h
    · simp at h
    · simp at h
      obtain ⟨hv, hnx⟩ := to_bytes_ok_elim htb
      rw [← h.2, hnx]
      exact ⟨natToBe_length _ _, from_bytes_natToBe _ _ hv⟩

lemma pageWriteBody_not_ok {p : Port} {a d : List Nat} {c : Option (List Nat)}
    (hge : 256 ^ a.length ≤ from_bytes a + d.length) :
    ∀ x, (pageWriteBody p a d c).2 ≠ Except.ok x := by
  intro x h
  simp only [pageWriteBody] at h
  rcases hpw : p.w (c.getD [] ++ a ++ d) with e | u <;> rw [hpw] at h
  · simp at h
  · rw [to_bytes_err hge] at h
    simp at h

lemma eeprom_page_write_ok_elim {p : Port} {a d : List Nat} {c : Option (List Nat)}
    {we : Bool × List Nat} {d2 next : List Nat}
    (h : (eeprom_page_write p a d c we).2 = Except.ok (d2, next)) :
    next.length = a.length ∧ from_bytes next = from_bytes a + d.length := by
  cases hwe : we.1 <;>
    simp only [eeprom_page_write, hwe, Bool.false_eq_true, if_false, if_true] at h
  · exact pageWriteBody_ok_elim h
  · rcases hpw : p.w we.2 with e | u <;> rw [hpw] at h
    · simp at h
    · simp at h
      exact pageWriteBody_ok_elim h

lemma eeprom_page_write_not_ok {p : Port} {a d : List Nat} {c : Option (List Nat)}
    {we : Bool × List Nat} (hge : 256 ^ a.length ≤ from_bytes a + d.length) :
    ∀ x, (eeprom_page_write p a d c we).2 ≠ Except.ok x := by
  intro x h
  cases hwe : we.1 <;>
    simp only [eeprom_page_write, hwe, Bool.false_eq_true, if_false, if_true] at h
  · exact pageWriteBody_not_ok hge x h
  · rcases hpw : p.w we.2 with e | u <;> rw [hpw] at h
    · simp at h
    · simp at h
      exact pageWriteBody_not_ok hge x h

lemma eeprom_write_ok_elim {p : Port} {a db : List Nat} {c : Option (List Nat)}
    {d2 next : List Nat} (h : (eeprom_write p a db c).2 = Except.ok (d2, next)) :
    next.length = a.length ∧ from_bytes next = from_bytes a + 1 := by
  simp only [eeprom_write] at h
  rcases hpw : p.w (c.getD [] ++ a ++ db) with e | u <;> rw [hpw] at h
  · simp at h
  · rcases htb : to_bytes (from_bytes a + 1) a.length with e | nx <;> rw [htb] at h
    · simp at h
    · simp at h
      obtain ⟨hv, hnx⟩ := to_bytes_ok_elim htb
      rw [← h.2, hnx]
      exact ⟨natToBe_length _ _, from_bytes_natToBe _ _ hv⟩

lemma eeprom_write_not_ok {p : Port} {a db : List Nat} {c : Option (List Nat)}
    (hge : 256 ^ a.length ≤ from_bytes a + 1) :
    ∀ x, (eeprom_write p a db c).2 ≠ Except.ok x := by
  intro x h
  simp only [eeprom_write] at h
  rcases hpw : p.w (c.getD [] ++ a ++ db) with e | u <;> rw [hpw] at h
  · simp at h
  · rw [to_bytes_err hge] at h
    simp at h

lemma eeprom_read_ok_elim {p : Port} {a : List Nat} {n : Nat} {c : Option (List Nat)}
    {d2 next : List Nat} (h : (eeprom_read p a n c).2 = Except.ok (d2, next)) :
    next.length = a.length ∧ from_bytes next = from_bytes a + n := by
  simp only [eeprom_read] at h
  rcases hpw : p.w (c.getD [] ++ a) with e | u <;> rw [hpw] at h
  · simp at h
  · rcases hrd : p.r n with e | rb <;> rw [hrd] at h
    · simp at h
    · rcases htb : to_bytes (from_bytes a + n) a.length with e | nx <;> rw [htb] at h
      · simp at h
      · simp at h
        obtain ⟨hv, hnx⟩ := to_bytes_ok_elim htb
        rw [← h.2, hnx]
        exact ⟨natToBe_length _ _, from_bytes_natToBe _ _ hv⟩

lemma eeprom_read_not_ok {p : Port} {a : List Nat} {n : Nat} {c : Option (List Nat)}
    (hge : 256 ^ a.length ≤ from_bytes a + n) :
    ∀ x, (eeprom_read p a n c).2 ≠ Except.ok x := by
  intro x h
  simp only [eeprom_read] at h
  rcases hpw : p.w (c.getD [] ++ a) with e | u <;> rw [hpw] at h
  · simp at h
  · rcases hrd : p.r n with e | rb <;> rw [hrd] at h
    · simp at h
    · rw [to_bytes_err hge] at h
      simp at h

/-- C3 (amended): on a healthy bus, `eeprom_page_write` first writes the
write-enable sequence as a separate port transaction exactly when
write-enable is enabled, then writes `[command?][address][data]` as one port
transaction; and whenever `address + len(data)` is representable in
`len(address)` bytes it returns the pair `(data, address + len(data))`
(big-endian, same width).  (As stated, with the return unconditional, the
claim fails at addresses near the top of the range: see the
counterexample, where the call raises `OverflowError` instead.) -/
theorem page_write_frames_and_advances :
    ∀ (p : Port) (address data : List Nat) (command : Option (List Nat))
      (we : Bool × List Nat),
      (∀ bs, p.w bs = Except.ok ()) →
      (eeprom_page_write p address data command we).1
          = (if we.1 then [POp.write we.2] else [])
              ++ [POp.write (command.getD [] ++ address ++ data)]
      ∧ (from_bytes address + data.length < 256 ^ address.length →
          (eeprom_page_write p address data command we).2
              = Except.ok (data, natToBe (from_bytes address + data.length) address.length)) := by
  intro p address data command we hw
  constructor
  · have hbody : (pageWriteBody p address data command).1
        = [POp.write (command.getD [] ++ address ++ data)] := by
      simp only [pageWriteBody]
      rw [hw]
      rcases htb : to_bytes (from_bytes address + data.length) address.length with e | nx <;>
        simp [htb]
    cases hwe : we.1 <;>
      simp [eeprom_page_write, hwe, hw, hbody]
  · intro hlt
    rw [eeprom_page_write_ok hw address data command we hlt]

/-- C3 witness: with write-enable `0x06`, command `0x02`, address `0x0000`
and three data bytes, the call issues the write-enable transaction then the
framed page write, and returns the data with next address `0x0003`. -/
theorem page_write_frames_and_advances_witness :
    (eeprom_page_write okPort [0, 0] [1, 2, 3] (some [2]) (true, [6])).1
        = [POp.write [6], POp.write [2, 0, 0, 1, 2, 3]]
    ∧ (eeprom_page_write okPort [0, 0] [1, 2, 3] (some [2]) (true, [6])).2
        = Except.ok ([1, 2, 3], [0, 3]) := by
  have h := page_write_frames_and_advances okPort [0, 0] [1, 2, 3] (some [2]) (true, [6])
    (fun _ => rfl)
  exact ⟨h.1.trans (by rfl), (h.2 (by decide)).trans (by rfl)⟩

/-- C3 counterexample: at address `0xFFFF` with one data byte the claim as
stated fails — no pair is returned; the next-address re-encoding raises
`OverflowError` (Python `int.to_bytes`: "int too big to convert"). -/
theorem page_write_frames_and_advances_cex :
    (eeprom_page_write okPort [255, 255] [0] none (false, [])).2
      = Except.error (PErr.overflow "int too big to convert") := by
  rfl

/-- C5: the next-address computation of `eeprom_page_write`, `eeprom_write`
and `eeprom_read` preserves the byte width — whenever the operation
returns, the next address has exactly the width of the input address and
carries the value `address + n` — and overflow beyond the representable
range is an error (`OverflowError` from `int.to_bytes`), never silent
truncation. -/
theorem next_address_preserves_width :
    ∀ (p : Port) (address data db : List Nat) (command : Option (List Nat))
      (we : Bool × List Nat) (n : Nat),
      (∀ d2 next, (eeprom_page_write p address data command we).2 = Except.ok (d2, next) →
          next.length = address.length ∧ from_bytes next = from_bytes address + data.length)
      ∧ (256 ^ address.length ≤ from_bytes address + data.length →
          ∀ x, (eeprom_page_write p address data command we).2 ≠ Except.ok x)
      ∧ (∀ d2 next, (eeprom_write p address db command).2 = Except.ok (d2, next) →
          next.length = address.length ∧ from_bytes next = from_bytes address + 1)
      ∧ (256 ^ address.length ≤ from_bytes address + 1 →
          ∀ x, (eeprom_write p address db command).2 ≠ Except.ok x)
      ∧ (∀ d2 next, (eeprom_read p address n command).2 = Except.ok (d2, next) →
          next.length = address.length ∧ from_bytes next = from_bytes address + n)
      ∧ (256 ^ address.length ≤ from_bytes address + n →
          ∀ x, (eeprom_read p address n command).2 ≠ Except.ok x) := by
  intro p address data db command we n
  exact ⟨fun d2 next h => eeprom_page_write_ok_elim h,
    fun hge => eeprom_page_write_not_ok hge,
    fun d2 next h => eeprom_write_ok_elim h,
    fun hge => eeprom_write_not_ok hge,
    fun d2 next h => eeprom_read_ok_elim h,
    fun hge => eeprom_read_not_ok hge⟩

/-- C5 witness: a three-byte page write at `0x0000` returns the two-byte
next address `0x0003`, and a one-byte page write at `0xFFFF` returns no
pair at all. -/
theorem next_address_preserves_width_witness :
    (([0, 3] : List Nat).length = ([0, 0] : List Nat).length
        ∧ from_bytes [0, 3] = from_bytes [0, 0] + 3)
    ∧ (eeprom_page_write okPort [255, 255] [0] none (false, [])).2
        ≠ Except.ok ([0], [0, 0]) := by
  have h := next_address_preserves_width okPort [0, 0] [1, 2, 3] [9] none (false, []) 0
  refine ⟨h.1 [1, 2, 3] [0, 3] (by rfl), ?_⟩
  have h2 := next_address_preserves_width okPort [255, 255] [0] [9] none (false, []) 0
  exact h2.2.1 (by decide) ([0], [0, 0])

/-- C8: a bus failure (e.g. a no-acknowledgment) during any port write or
read inside `eeprom_page_write`, `eeprom_write` or `eeprom_read` propagates
to the caller unchanged as a transport error; the trace shows the failing
operation attempted exactly once with nothing after it (no retry), and the
result carries no next-address value, so the caller's address cursor is
untouched. -/
theorem transport_failure_propagates :
    ∀ (p : Port) (address data db : List Nat) (command : Option (List Nat))
      (we : Bool × List Nat) (n : Nat) (e : String),
      (we.1 = true → p.w we.2 = Except.error e →
        eeprom_page_write p address data command we
          = ([POp.write we.2], Except.error (PErr.transport e)))
      ∧ ((we.1 = true → p.w we.2 = Except.ok ()) →
          p.w (command.getD [] ++ address ++ data) = Except.error e →
          eeprom_page_write p address data command we
            = ((if we.1 then [POp.write we.2] else [])
                  ++ [POp.write (command.getD [] ++ address ++ data)],
                Except.error (PErr.transport e)))
      ∧ (p.w (command.getD [] ++ address ++ db) = Except.error e →
          eeprom_write p address db command
            = ([POp.write (command.getD [] ++ address ++ db)],
                Except.error (PErr.transport e)))
      ∧ (p.w (command.getD [] ++ address) = Except.error e →
          eeprom_read p address n command
            = ([POp.write (command.getD [] ++ address)],
                Except.error (PErr.transport e)))
      ∧ (p.w (command.getD [] ++ address) = Except.ok () → p.r n = Except.error e →
          eeprom_read p address n command
            = ([POp.write (command.getD [] ++ address), POp.read n],
                Except.error (PErr.transport e))) := by
  intro p address data db command we n e
  refine ⟨?_, ?_, ?_, ?_, ?_⟩
  · intro hwe hpw
    simp [eeprom_page_write, hwe, hpw]
  · intro hok hpw
    cases hwe : we.1
    · simp only [eeprom_page_write, hwe, Bool.false_eq_true, if_false, pageWriteBody]
      rw [hpw]
      rfl
    · simp only [eeprom_page_write, hwe, if_true, pageWriteBody]
      rw [hok hwe, hpw]
      rfl
  · intro hpw
    simp only [eeprom_write]
    rw [hpw]
  · intro hpw
    simp only [eeprom_read]
    rw [hpw]
  · intro hpw hrd
    simp only [eeprom_read]
    rw [hpw, hrd]

/-- C8 witness: on a port that NACKs every transaction, `eeprom_write`
attempts its single framed write once and fails with the same transport
error, producing no next address. -/
theorem transport_failure_propagates_witness :
    eeprom_write nackPort [0, 0] [1] none
      = ([POp.write [0, 0, 1]], Except.error (PErr.transport "NACK from slave")) := by
  have h := transport_failure_propagates nackPort [0, 0] [1] [1] none (false, []) 0
    "NACK from slave"
  exact (h.2.2.1 (by rfl)).trans (by rfl)

/-- C9: the protocol lookup is a pure two-entry static table (it takes no
port and performs no transport operation).  `"24LC32"` maps to address_size
12, page_size 32, no write-enable and no command bytes; `"ZL30267"` maps to
address_size 12, page_size 32, the one-byte write-enable sequence `0x06`
and distinct one-byte opcodes `0x02` (Page Write) and `0x03` (Read); every
other name fails with `ValueError("Invalid Device")`. -/
theorem protocol_lookup_table :
    i2c_protocol_parse "24LC32" = Except.ok proto24
    ∧ i2c_protocol_parse "ZL30267" = Except.ok protoZL
    ∧ proto24.address_size = 12 ∧ proto24.page_size = 32
    ∧ proto24.write_enable = (false, [])
    ∧ getCmd proto24 "Page Write" = none ∧ getCmd proto24 "Single Write" = none
    ∧ getCmd proto24 "Read" = none
    ∧ protoZL.address_size = 12 ∧ protoZL.page_size = 32
    ∧ protoZL.write_enable = (true, [6])
    ∧ getCmd protoZL "Page Write" = some [2] ∧ getCmd protoZL "Read" = some [3]
    ∧ ([2] : List Nat) ≠ [3]
    ∧ ∀ d : String, d ≠ "24LC32" → d ≠ "ZL30267" →
        i2c_protocol_parse d = Except.error "Invalid Device" := by
  refine ⟨rfl, rfl, rfl, rfl, rfl, rfl, rfl, rfl, rfl, rfl, rfl, rfl, rfl,
    by decide, ?_⟩
  intro d h1 h2
  simp [i2c_protocol_parse, h1, h2]

/-- C9 witness: an unregistered device name fails with the invalid-device
error. -/
theorem protocol_lookup_table_witness :
    i2c_protocol_parse "24lc32" = Except.error "Invalid Device" :=
  protocol_lookup_table.2.2.2.2.2.2.2.2.2.2.2.2.2.2 "24lc32" (by decide) (by decide)

/-- C4: for hex text that decodes (optionally `0x`-prefixed, surrounding
whitespace allowed), `byte_address_parse` returns the decoded bytes, whose
integer value is exactly the base-16 value of the digits typed; a value
`≥ max` fails with the range error, and non-hex content fails with the
parse error from `bytes.fromhex`. -/
theorem addr_parse_value_and_errors :
    ∀ (s : String) (m : Nat),
      (∀ bs, fromhexCore (addrClean s) = Except.ok bs →
          from_bytes bs = hexStrVal (addrClean s)
          ∧ (from_bytes bs < m → byte_address_parse s (some m) = Except.ok bs)
          ∧ (m ≤ from_bytes bs →
              byte_address_parse s (some m)
                = Except.error (AddrErr.range "byte_str larger than max_size")))
      ∧ (∀ e, fromhexCore (addrClean s) = Except.error e →
          byte_address_parse s (some m) = Except.error (AddrErr.parse e)) := by
  intro s m
  constructor
  · intro bs h
    refine ⟨?_, ?_, ?_⟩
    · exact fromhexCore_ok_val (addrClean s).length (addrClean s) le_rfl bs h 0
    · intro hlt
      have hnle : ¬ m ≤ from_bytes bs := by omega
      simp [byte_address_parse, h, hnle]
    · intro hge
      simp [byte_address_parse, h, hge]
  · intro e h
    simp [byte_address_parse, h]

/-- C4 witness: `"0x1f"` decodes to value 31: below the bound it parses to
`[0x1f]`, above it the range error is raised; non-hex text raises the
parse error. -/
theorem addr_parse_value_and_errors_witness :
    from_bytes [31] = hexStrVal (addrClean "0x1f")
    ∧ byte_address_parse "0x1f" (some 4096) = Except.ok [31]
    ∧ byte_address_parse "0x1f" (some 16)
        = Except.error (AddrErr.range "byte_str larger than max_size")
    ∧ byte_address_parse "zz" (some 4096) = Except.error (AddrErr.parse hexErrMsg) := by
  have h1 := (addr_parse_value_and_errors "0x1f" 4096).1 [31] (by rfl)
  have h2 := (addr_parse_value_and_errors "0x1f" 16).1 [31] (by rfl)
  have h3 := (addr_parse_value_and_errors "zz" 4096).2 hexErrMsg (by rfl)
  exact ⟨h1.1, h1.2.1 (by decide), h2.2.2 (by decide), h3⟩

/-- C6 (amended): the width of the address `byte_address_parse` returns is
the number of hex-digit pairs the caller typed — half the digit count of
the cleaned text — not the minimal width for `max_exclusive - 1`.  (See the
counterexample: with `max_exclusive = 2^12`, `"0f"` yields a one-byte
address, not a two-byte one.) -/
theorem addr_width_follows_typed_digits :
    ∀ (s : String) (m : Nat) (bs : List Nat),
      byte_address_parse s (some m) = Except.ok bs →
      2 * bs.length = ((addrClean s).filter (fun c => !wsChar c)).length := by
  intro s m bs h
  simp only [byte_address_parse] at h
  rcases hfx : fromhexCore (addrClean s) with e | bs2 <;> rw [hfx] at h
  · simp at h
  · by_cases hm : m ≤ from_bytes bs2
    · simp [hm] at h
    · simp [hm] at h
      subst h
      exact fromhexCore_ok_len (addrClean s).length (addrClean s) le_rfl bs2 hfx

/-- C6 witness: four typed digits give a two-byte address. -/
theorem addr_width_follows_typed_digits_witness :
    byte_address_parse "000f" (some 4096) = Except.ok [0, 15]
    ∧ 2 * ([0, 15] : List Nat).length
        = ((addrClean "000f").filter (fun c => !wsChar c)).length := by
  refine ⟨by rfl, ?_⟩
  exact addr_width_follows_typed_digits "000f" 4096 [0, 15] (by rfl)

/-- C6 counterexample: with `max_exclusive = 2^12` the claim says every
returned address is two bytes wide, but `"0f"` parses to the one-byte
address `[0x0f]`. -/
theorem addr_width_follows_typed_digits_cex :
    byte_address_parse "0f" (some (2 ^ 12)) = Except.ok [15]
    ∧ ([15] : List Nat).length ≠ 2 := by
  exact ⟨by rfl, by decide⟩

/-- C10: text whose cleaned content is hex digits in odd number is rejected
by `byte_address_parse` (with the `bytes.fromhex` parse error) no matter
the bound, even when the decoded value would be in range. -/
theorem odd_hex_digit_count_rejected :
    ∀ (s : String) (m : Nat),
      (addrClean s).all isHexDigitC = true →
      (addrClean s).length % 2 = 1 →
      byte_address_parse s (some m) = Except.error (AddrErr.parse hexErrMsg) := by
  intro s m hall hodd
  have herr := fromhexCore_odd_err (addrClean s).length (addrClean s) le_rfl hall hodd
  simp [byte_address_parse, herr]

/-- C10 witness: `"F"` (one digit) is rejected while `"0F"` (two digits) is
accepted, although both denote 15 < 256. -/
theorem odd_hex_digit_count_rejected_witness :
    byte_address_parse "F" (some 256) = Except.error (AddrErr.parse hexErrMsg)
    ∧ byte_address_parse "0F" (some 256) = Except.ok [15] := by
  exact ⟨odd_hex_digit_count_rejected "F" 256 (by decide) (by decide), by rfl⟩

/-! #### Image-codec lemmas -/

lemma zlLines_eq_specImage :
    ∀ lines : List (List Char),
      zlLines lines = specImageBytes (lines.filter (fun l => !(l.contains ';'))) := by
  intro lines
  induction lines with
  | nil => rfl
  | cons line rest ih =>
    by_cases hc : line.contains ';'
    · have hm : ';' ∈ line := List.mem_of_elem_eq_true hc
      simp [zlLines, hc, hm, List.filter_cons, ih]
    · have hcf : line.contains ';' = false := by
        cases h4 : line.contains ';'
        · rfl
        · exact absurd h4 hc
      have hm : ¬ ';' ∈ line := by
        intro hmem
        have h3 : line.contains ';' = true := List.elem_eq_true_of_mem hmem
        rw [h3] at hcf
        exact Bool.noConfusion hcf
      rcases hlb : lineByte line with e | b <;>
        simp [zlLines, hcf, hm, List.filter_cons, specImageBytes, hlb, ih]

lemma specImageBytes_err_of_mem :
    ∀ (lines : List (List Char)) (l : List Char), l ∈ lines →
      (∃ e, lineByte l = Except.error e) →
      ∃ e2, specImageBytes lines = Except.error e2 := by
  intro lines
  induction lines with
  | nil =>
    intro l h
    simp at h
  | cons x rest ih =>
    intro l hmem he
    obtain ⟨e, hlb⟩ := he
    rcases List.mem_cons.mp hmem with h | h
    · subst h
      exact ⟨e, by simp [specImageBytes, hlb]⟩
    · rcases hx : lineByte x with ex | bx
      · exact ⟨ex, by simp [specImageBytes, hx]⟩
      · obtain ⟨e2, h2⟩ := ih l h ⟨e, hlb⟩
        exact ⟨e2, by simp [specImageBytes, hx, h2, Except.map]⟩

/-- C7: `zl_eeprom_image_parse` requires the `".txt"` extension before any
line is consumed; with it, the result is exactly the specification's image:
every line containing the comment marker `';'` is skipped entirely, every
other line is one hexadecimal byte value appended in file order, and a
non-comment line that is not a valid single-byte hex value makes the whole
parse fail.  On the lines `["02", "; comment", "0A", "FF"]` the image is
`[0x02, 0x0A, 0xFF]`. -/
theorem image_parse_behaviour :
    ∀ (name : String) (lines : List String),
      (splitextExt name.data ≠ ('.' :: 't' :: 'x' :: 't' :: []) →
          zl_eeprom_image_parse name lines = Except.error "Invalid file extension")
      ∧ (splitextExt name.data = ('.' :: 't' :: 'x' :: 't' :: []) →
          zl_eeprom_image_parse name lines
            = specImageBytes ((lines.map String.data).filter (fun l => !(l.contains ';'))))
      ∧ (splitextExt name.data = ('.' :: 't' :: 'x' :: 't' :: []) →
          ∀ l, l ∈ lines → l.data.contains ';' = false →
          (∃ e, lineByte l.data = Except.error e) →
          ∃ e2, zl_eeprom_image_parse name lines = Except.error e2)
      ∧ zl_eeprom_image_parse "image.txt" ["02", "; comment", "0A", "FF"]
          = Except.ok [2, 10, 255] := by
  intro name lines
  refine ⟨?_, ?_, ?_, ?_⟩
  · intro hne
    simp only [zl_eeprom_image_parse]
    rw [if_pos hne]
  · intro heq
    simp only [zl_eeprom_image_parse, heq]
    rw [if_neg (by simp)]
    exact zlLines_eq_specImage _
  · intro heq l hmem hnc he
    have hmf : l.data ∈ (lines.map String.data).filter (fun x => !(x.contains ';')) := by
      apply List.mem_filter.mpr
      exact ⟨List.mem_map_of_mem _ hmem, by simp only [hnc, Bool.not_false]⟩
    obtain ⟨e2, h2⟩ := specImageBytes_err_of_mem _ _ hmf he
    refine ⟨e2, ?_⟩
    simp only [zl_eeprom_image_parse, heq]
    rw [if_neg (by simp)]
    rw [zlLines_eq_specImage]
    exact h2
  · rfl

/-- C7 witness: a non-`.txt` path fails before any line is read; with the
right extension the parse agrees with the specification image on a file
with a bad line. -/
theorem image_parse_behaviour_witness :
    zl_eeprom_image_parse "image.bin" ["02"] = Except.error "Invalid file extension"
    ∧ zl_eeprom_image_parse "image.txt" ["02", "ZZ"]
        = specImageBytes (((["02", "ZZ"] : List String).map String.data).filter
            (fun l => !(l.contains ';'))) := by
  refine ⟨(image_parse_behaviour "image.bin" ["02"]).1 (by decide), ?_⟩
  exact (image_parse_behaviour "image.txt" ["02", "ZZ"]).2.1 (by rfl)
